import Mathlib

/-!
Verification of the buildhub discovery-and-publish pipeline
(`jobs/scrape_archives.py` and `jobs/buildhub/to_kinto.py`).

The Python code is shallowly embedded: dictionaries become association
lists over a parametric value type, coroutines become pure functions on
explicit queues (lists of items), the network and the Kinto client are
parameters, and timing-sensitive behaviour is expressed through explicit
event lists or time-stamp models.
-/

set_option maxRecDepth 8000

namespace Buildhub

/-! ### Python dictionaries as association lists

A Python `dict` is modelled as an association list `List (String × V)`
with at most one entry per key (Python dictionaries cannot repeat keys).
`dictEqb` is Python `==` on dictionaries: both sides contain each
other key-by-key.  The value type `V` is a parameter with decidable
equality, standing for arbitrary JSON values. -/

abbrev Dict (V : Type) := List (String × V)

/-- Python `d1 == d2` for dictionaries: every entry of each is found in
the other. -/
def dictEqb {V : Type} [DecidableEq V] (d1 d2 : Dict V) : Bool :=
  d1.all (fun kv => decide (d2.lookup kv.1 = some kv.2)) &&
  d2.all (fun kv => decide (d1.lookup kv.1 = some kv.2))

/-- `to_kinto.py` `records_equal`: the dictionary comprehension
`{k: v for k, v in r.items() if k not in omit}` with
`omit = ["last_modified", "schema"]`. -/
def omitVolatile {V : Type} (r : Dict V) : Dict V :=
  r.filter (fun kv => !(kv.1 == "last_modified" || kv.1 == "schema"))

/-- `to_kinto.py` `records_equal(r1, r2)`: compare the two dictionaries
after dropping `last_modified` and `schema` from both. -/
def records_equal {V : Type} [DecidableEq V] (r1 r2 : Dict V) : Bool :=
  dictEqb (omitVolatile r1) (omitVolatile r2)

/-! ### Batch results and `publish_records` (`to_kinto.py`) -/

/-- One per-operation result from a submitted Kinto batch.  `code` is the
error code of the operation if any (`result.get("code")`); the string
fields are the renderings interpolated into the error messages
(`details[existing][id]`, `details[existing]`, and `str(result)`). -/
structure OpResult where
  code : Option Nat
  existing_id : String
  existing : String
  text : String
deriving DecidableEq, Repr

/-- The error message `publish_records` builds for one result, if the
result carries an error code (codes 412 and 400 get dedicated wording,
any other code a generic one). -/
def errorMsg (r : OpResult) : Option String :=
  match r.code with
  | none => none
  | some c =>
    if c = 412 then
      some ("Record " ++ r.existing_id ++ " already exists: " ++ r.existing)
    else if c = 400 then some ("Invalid record: " ++ r.text)
    else some ("Error: " ++ r.text)

/-- Total version of `errorMsg` for results that do carry a code. -/
def failMsg (r : OpResult) : String := (errorMsg r).getD ""

/-- `to_kinto.py` `publish_records`, starting from the per-operation
results of the already-submitted batch (the `with client.batch()` block
has completed, so the whole batch went to the server): collect one
message per failing operation and raise a single aggregated `ValueError`
if there are any; otherwise return all results. -/
def publish_records (results : List OpResult) : Except String (List OpResult) :=
  if (results.filterMap errorMsg).isEmpty then Except.ok results
  else Except.error (String.intercalate "\n" (results.filterMap errorMsg))

/-- The operations the server applied: exactly those whose result carries
no error code (a raised aggregated error does not undo them). -/
def appliedOps (results : List OpResult) : List OpResult :=
  results.filter (fun r => r.code == none)

/-! ### The producer/consumer queue of `to_kinto.py` -/

/-- An item on the `asyncio.Queue`: either a record (a parsed JSON
dictionary) or the distinguished completion marker `done = object()`. -/
inductive QItem (V : Type) where
  | record (data : Dict V)
  | done
deriving DecidableEq

/-- A stdin line is valid for `produce` when its parsed JSON object has a
`"data"` or a `"permission"` key. -/
def validLine {V : Type} (l : Dict V) : Bool :=
  (l.lookup "data").isSome || (l.lookup "permission").isSome

/-- `to_kinto.py` `produce`: read parsed lines in order; a line with
neither `"data"` nor `"permission"` raises `ValueError` on the spot,
ending the coroutine; the items enqueued so far stay on the queue and the
completion marker is only enqueued after the last line, on normal exit.
Returns the enqueued items and the error, if any. -/
def produceRun {V : Type} : List (Dict V) → List (QItem V) × Option String
  | [] => ([QItem.done], none)
  | l :: rest =>
    if validLine l then
      let res := produceRun rest
      (QItem.record l :: res.1, res.2)
    else
      ([], some "Invalid record (missing data attribute)")

/-- `server_info()["settings"]`. -/
structure ServerSettings where
  batch_max_requests : Nat
deriving DecidableEq

/-- `client.server_info()`. -/
structure ServerInfo where
  settings : ServerSettings
deriving DecidableEq

/-- The dedup test of `to_kinto.py` `consume`: the record is dropped when
its `data["id"]` is a key of the previous-run snapshot and
`records_equal` holds against the snapshot entry. -/
def shouldSkip {V : Type} [DecidableEq V] (records_by_id : List (V × Dict V))
    (data : Dict V) : Bool :=
  match data.lookup "id" with
  | some rid =>
    match records_by_id.lookup rid with
    | some prev => records_equal data prev
    | none => false
  | none => false

/-- The inner collection loop of `to_kinto.py` `consume`: pull from the
queue while the batch is below `ideal_batch_size`; stop on the completion
marker; skip (and acknowledge) records equal to their snapshot entry;
otherwise append to the batch.  An exhausted queue is the
`asyncio.TimeoutError` branch: proceed with the partial batch.  Returns
the collected batch and the remaining queue. -/
def collectBatch {V : Type} [DecidableEq V] (maxSize : Nat)
    (byId : List (V × Dict V)) :
    List (QItem V) → List (Dict V) → List (Dict V) × List (QItem V)
  | [], batch => (batch, [])
  | item :: rest, batch =>
    if maxSize ≤ batch.length then (batch, item :: rest)
    else
      match item with
      | QItem.done => (batch, rest)
      | QItem.record data =>
        if shouldSkip byId data then collectBatch maxSize byId rest batch
        else collectBatch maxSize byId rest (batch ++ [data])

/-- The outer loop of `to_kinto.py` `consume`, fuelled for termination
(the real coroutine loops forever and is cancelled once the queue stays
empty; the observable output is the sequence of submitted batches, and
an iteration with a non-empty queue always consumes at least one item,
so `fuel = queue length` reproduces every submitted batch). -/
def consumeLoop {V : Type} [DecidableEq V] (maxSize : Nat)
    (byId : List (V × Dict V)) : Nat → List (QItem V) → List (List (Dict V))
  | 0, _ => []
  | _ + 1, [] => []
  | fuel + 1, it :: rest =>
    let res := collectBatch maxSize byId (it :: rest) []
    if res.1.isEmpty then consumeLoop maxSize byId fuel res.2
    else res.1 :: consumeLoop maxSize byId fuel res.2

/-- `to_kinto.py` `consume`: batches submitted for a given queue, with
the batch-size ceiling taken from `server_info()["settings"]["batch_max_requests"]`. -/
def consume {V : Type} [DecidableEq V] (info : ServerInfo)
    (byId : List (V × Dict V)) (q : List (QItem V)) : List (List (Dict V)) :=
  consumeLoop info.settings.batch_max_requests byId q.length q

/-- The inner collection loop of `scrape_archives.py` `consume`: same
shape, but no completion marker and no dedup — every record goes into
the batch. -/
def scrapeCollectBatch {R : Type} (maxSize : Nat) :
    List R → List R → List R × List R
  | [], batch => (batch, [])
  | item :: rest, batch =>
    if maxSize ≤ batch.length then (batch, item :: rest)
    else scrapeCollectBatch maxSize rest (batch ++ [item])

/-- The outer loop of `scrape_archives.py` `consume`, fuelled like
`consumeLoop`. -/
def scrapeConsumeLoop {R : Type} (maxSize : Nat) : Nat → List R → List (List R)
  | 0, _ => []
  | _ + 1, [] => []
  | fuel + 1, it :: rest =>
    let res := scrapeCollectBatch maxSize (it :: rest) []
    if res.1.isEmpty then scrapeConsumeLoop maxSize fuel res.2
    else res.1 :: scrapeConsumeLoop maxSize fuel res.2

/-- `scrape_archives.py` `consume`: batches submitted for a given queue,
ceiling from `server_info()`. -/
def scrape_consume {R : Type} (info : ServerInfo) (q : List R) : List (List R) :=
  scrapeConsumeLoop info.settings.batch_max_requests q.length q

/-! ### Records and metadata (`scrape_archives.py`) -/

/-- Python `pat in s` (substring test). -/
def containsSubstr (s pat : String) : Bool :=
  decide (pat.toList <:+: s.toList)

/-- Suffix test on strings (via character lists). -/
def strEndsWith (s suf : String) : Bool :=
  decide (suf.toList <:+ s.toList)

/-- Python `s.replace(old, new)` on character lists: replace every
left-to-right non-overlapping occurrence, fuelled by the input length
(each step consumes at least one character when `old` is non-empty). -/
def replaceAllFuel (old new : List Char) : Nat → List Char → List Char
  | 0, l => l
  | _ + 1, [] => []
  | fuel + 1, c :: rest =>
    if 1 ≤ old.length ∧ old <+: (c :: rest) then
      new ++ replaceAllFuel old new fuel ((c :: rest).drop old.length)
    else c :: replaceAllFuel old new fuel rest

/-- Python `s.replace(old, new)`. -/
def replaceAll (old new l : List Char) : List Char :=
  replaceAllFuel old new l.length l

/-- Python `s.split("/")[-1]`: the characters after the last slash (the
whole string when there is none, empty when the string ends with a
slash). -/
def afterLastSlash (s : String) : String :=
  String.mk ((s.toList.reverse.takeWhile (fun c => !(c == '/'))).reverse)

/-- The sidecar JSON build-info file
(e.g. `firefox-55.0b1.json`): the fields `archive` reads. -/
structure Metadata where
  moz_source_stamp : String
  moz_update_channel : String
  moz_source_repo : String
  buildid : String
deriving DecidableEq, Repr

/-- The `FILE_EXTENSIONS = "zip|gz|bz|bz2|dmg|apk"` alternation. -/
def FILE_EXTENSIONS : List String := ["zip", "gz", "bz", "bz2", "dmg", "apk"]

/-- `re.sub("\.(zip|gz|bz|bz2|dmg|apk)$", ".json", url)`: replace a
trailing binary extension with `.json` (no listed extension means no
change, as `re.sub` with no match).  No listed extension is a suffix of
another preceded by a dot, so the suffix test is unambiguous. -/
def metadataUrl (url : String) : String :=
  match FILE_EXTENSIONS.find? (fun e => strEndsWith url ("." ++ e)) with
  | some e => url.dropRight (e.length + 1) ++ ".json"
  | none => url

/-- `scrape_archives.py` `fetch_nightly_metadata`: a URL without the
substring `en-US` gets `None` straight away; otherwise the sidecar URL is
fetched, with any `aiohttp.ClientError` (including a 404 for a sidecar
not yet published) giving `None`.  `net` is the network: the successful
JSON fetches (`none` = `ClientError`). -/
def fetch_nightly_metadata (net : String → Option Metadata)
    (nightly_url : String) : Option Metadata :=
  if containsSubstr nightly_url "en-US" then net (metadataUrl nightly_url)
  else none

/-- `record["build"]`. -/
structure Build where
  id : String
  date : String
deriving DecidableEq, Repr

/-- `record["source"]`. -/
structure SourceInfo where
  revision : Option String
  tree : Option String
  product : String
deriving DecidableEq, Repr

/-- `record["target"]`. -/
structure Target where
  platform : String
  locale : String
  version : String
  channel : Option String
deriving DecidableEq, Repr

/-- `record["download"]`. -/
structure Download where
  url : String
  mimetype : Option String
  size : Nat
  date : String
deriving DecidableEq, Repr

/-- The record dictionary built by `scrape_archives.py` `archive`. -/
structure Record where
  build : Option Build
  source : SourceInfo
  target : Target
  download : Download
  systemaddons : Option Unit
deriving DecidableEq, Repr

/-- `datetime.strptime(buildid[:12], "%Y%m%d%H%M").isoformat()`:
the first twelve characters of the build id rendered as an ISO
timestamp. -/
def isoBuildDate (buildid : String) : String :=
  let s := buildid.take 12
  s.take 4 ++ "-" ++ (s.drop 4).take 2 ++ "-" ++ (s.drop 6).take 2 ++ "T" ++
    (s.drop 8).take 2 ++ ":" ++ (s.drop 10).take 2 ++ ":00"

/-- `scrape_archives.py` `archive`: build the record from the listing
attributes, the URL-derived identifiers and the optional metadata.  With
metadata present, the channel is overwritten from
`moz_update_channel`, the tree is the last path component of the source
repository (after stripping a `MOZ_SOURCE_REPO=` prefix), and the build
date comes from the build id; without metadata, `build`, `revision` and
`tree` stay `None` and the caller-provided channel is kept. -/
def archive (product version platform locale : String) (channel : Option String)
    (url : String) (size : Nat) (date : String) (metadata : Option Metadata) :
    Record :=
  match metadata with
  | none =>
    { build := none
      source := { revision := none, tree := none, product := product }
      target := { platform := platform, locale := locale, version := version,
                  channel := channel }
      download := { url := url, mimetype := none, size := size, date := date }
      systemaddons := none }
  | some m =>
    let repository :=
      String.mk (replaceAll "MOZ_SOURCE_REPO=".toList [] m.moz_source_repo.toList)
    { build := some { id := m.buildid, date := isoBuildDate m.buildid }
      source := { revision := some m.moz_source_stamp
                  tree := some (afterLastSlash repository)
                  product := product }
      target := { platform := platform, locale := locale, version := version,
                  channel := some m.moz_update_channel }
      download := { url := url, mimetype := none, size := size, date := date }
      systemaddons := none }

/-- One file entry of a directory listing (`{name, size, last_modified}`). -/
structure FileEntry where
  name : String
  size : Nat
  last_modified : String
deriving DecidableEq, Repr

/-- The groups captured by the nightly filename regular expression
`\w+-(\d+.+)\.([a-z]+(\-[A-Z]+)?)\.(.+)\.(zip|gz|bz|bz2|dmg|apk)$`:
version (group 1), locale (group 2) and platform (group 4). -/
structure NightlyParse where
  version : String
  locale : String
  platform : String
deriving DecidableEq, Repr

/-- The per-day emission loop of `scrape_archives.py` `fetch_nightlies`
(lines 197-214).  The regular-expression search on the filename is a
parameter `parse` (`None` = no match); every claim below is proved for
every such parser.  A file that matches and does not contain `tests` gets
its metadata resolved by `fetch_nightly_metadata` and one record built by
`archive` and put on the queue — unconditionally, whether or not the
metadata was found. -/
def fetch_nightlies_day (net : String → Option Metadata)
    (parse : String → Option NightlyParse)
    (product : String) (day_url : String) (files : List FileEntry) :
    List Record :=
  files.filterMap fun f =>
    match parse f.name with
    | none => none
    | some p =>
      if containsSubstr f.name "tests" then none
      else
        let url := day_url ++ f.name
        let metadata := fetch_nightly_metadata net url
        some (archive product p.version p.platform p.locale (some "nightly")
          url f.size f.last_modified metadata)

/-! ### Release version traversal (`scrape_archives.py` `fetch_versions`) -/

/-- `re.match(r'^[0-9]', v)`: the folder name starts with a digit. -/
def startsWithDigit (s : String) : Bool :=
  match s.toList with
  | [] => false
  | c :: _ => c.isDigit

/-- The descending order used by
`sorted(versions, key=version_parse, reverse=True)`, relative to a
version-parsing key into a linearly ordered type (the embedding of
`packaging.version.parse`, an external library, is kept as a
parameter). -/
def descKey {V : Type} [LinearOrder V] (vparse : String → V) :
    String → String → Prop :=
  fun a b => vparse b ≤ vparse a

instance descKey_decidable {V : Type} [LinearOrder V] (vparse : String → V) :
    DecidableRel (descKey vparse) :=
  fun a b => inferInstanceAs (Decidable (vparse b ≤ vparse a))

instance descKey_isTotal {V : Type} [LinearOrder V] (vparse : String → V) :
    IsTotal String (descKey vparse) :=
  ⟨fun a b => le_total (vparse b) (vparse a)⟩

instance descKey_isTrans {V : Type} [LinearOrder V] (vparse : String → V) :
    IsTrans String (descKey vparse) :=
  ⟨fun _ _ _ h1 h2 => le_trans h2 h1⟩

/-- The version-folder filter and sort of `scrape_archives.py`
`fetch_versions` (lines 235-239): keep folders starting with a digit,
strip the trailing slash, drop `funnelcake` versions, keep only versions
parsing strictly greater than the last known one, and sort descending by
parsed version. -/
def fetch_versions_retained {V : Type} [LinearOrder V] (vparse : String → V)
    (versions_folders : List String) (latest_version : String) : List String :=
  let versions := (versions_folders.filter startsWithDigit).map
    (fun v => v.dropRight 1)
  let versions2 := versions.filter (fun v => !(containsSubstr v "funnelcake"))
  let versions3 := versions2.filter
    (fun v => decide (vparse latest_version < vparse v))
  List.insertionSort (descKey vparse) versions3

/-- The records contributed by `fetch_versions`: one `fetch_platforms`
sub-crawl per retained version (the per-version sub-crawl output is a
parameter `recsOf`). -/
def fetch_versions_emitted {V : Type} [LinearOrder V] (vparse : String → V)
    (recsOf : String → List Record)
    (versions_folders : List String) (latest_version : String) : List Record :=
  (fetch_versions_retained vparse versions_folders latest_version).flatMap recsOf

/-! ### Previous-run snapshot (`to_kinto.py` `fetch_existing`) -/

/-- A record as stored on the Kinto server and in the snapshot file:
an `id`, a `last_modified` revision counter, and the rest of the record
kept opaque. -/
structure KRecord where
  id : String
  last_modified : Nat
  body : String
deriving DecidableEq, Repr

/-- The filesystem operations `fetch_existing` performs on the snapshot:
`json.dump(records, open(cache_file + ".tmp", "w"))` then
`os.rename(tmpfilename, cache_file)`. -/
inductive FsOp where
  | writeTmp (contents : List KRecord)
  | renameTmpOverCache
deriving DecidableEq, Repr

/-- One step of the dict comprehension
`{r["id"]: r for r in previous_run_cache + new_records}`: a repeated id
keeps its first position but takes the last record. -/
def upsert (acc : List KRecord) (r : KRecord) : List KRecord :=
  if acc.any (fun x => x.id == r.id) then
    acc.map (fun x => if x.id == r.id then r else x)
  else acc ++ [r]

/-- `list({r["id"]: r for r in rs}.values())`. -/
def mergeById (rs : List KRecord) : List KRecord := rs.foldl upsert []

/-- What one call to `fetch_existing` returns and does. -/
structure FetchExistingResult where
  records : List KRecord
  fsOps : List FsOp
  since : Option String
deriving DecidableEq, Repr

/-- `max([r['last_modified'] for r in cache])` (the cache is non-empty
whenever this is used). -/
def maxLastModified (cache : List KRecord) : Nat :=
  (cache.map KRecord.last_modified).foldl max 0

/-- `to_kinto.py` `fetch_existing`: load the cache file if it exists,
fetch the server records since the highest cached `last_modified`, merge
by id (newer wins), and — whenever the merged list is non-empty — rewrite
the snapshot by writing a temporary file and renaming it over the cache
file.  `cache` is the snapshot file contents (`none` = file absent);
`get_records` is the Kinto client keyed by the `_since` filter. -/
def fetch_existing (cache : Option (List KRecord))
    (get_records : Option String → List KRecord) : FetchExistingResult :=
  let previous_run_cache := cache.getD []
  let previous_run_timestamp : Option String :=
    match cache with
    | none => none
    | some c => some ("\"" ++ toString (maxLastModified c) ++ "\"")
  let new_records := get_records previous_run_timestamp
  let records := mergeById (previous_run_cache ++ new_records)
  let ops :=
    if records.length > 0 then [FsOp.writeTmp records, FsOp.renameTmpOverCache]
    else []
  ⟨records, ops, previous_run_timestamp⟩

/-- The two files `fetch_existing` touches. -/
structure Fs where
  cacheFile : Option (List KRecord)
  tmpFile : Option (List KRecord)
deriving DecidableEq, Repr

/-- Effect of one filesystem operation: writing the temporary file never
touches the cache file; the rename atomically replaces the cache file
with the temporary file. -/
def applyOp (fs : Fs) (op : FsOp) : Fs :=
  match op with
  | FsOp.writeTmp c => { fs with tmpFile := some c }
  | FsOp.renameTmpOverCache => { cacheFile := fs.tmpFile, tmpFile := none }

/-- Run a sequence of filesystem operations. -/
def applyOps (fs : Fs) (ops : List FsOp) : Fs := ops.foldl applyOp fs

/-- Coarse event trace of `to_kinto.py` `main`: with `--skip`, the
snapshot file is read and possibly rewritten by `fetch_existing` first;
the producer/consumer pipeline (stdin records, queue, publishing) only
runs afterwards. -/
inductive RunEvent where
  | readCache
  | fetchNew (count : Nat)
  | fs (op : FsOp)
  | pipeline
  | runEnd
deriving DecidableEq, Repr

/-- The run-level ordering of `to_kinto.py` `main`:
`fetch_existing` (cache read, server fetch, snapshot rewrite) happens at
startup, before any record of this run is produced or published. -/
def to_kinto_run (skip : Bool) (cache : Option (List KRecord))
    (get_records : Option String → List KRecord) : List RunEvent :=
  (if skip then
    let res := fetch_existing cache get_records
    RunEvent.readCache :: RunEvent.fetchNew (get_records res.since).length ::
      res.fsOps.map RunEvent.fs
  else []) ++ [RunEvent.pipeline, RunEvent.runEnd]

/-! ### The `markdone` completion callbacks (C6) -/

/-- What a completion callback does, in order: acknowledge queue items,
then either re-raise the batch failure or return the results. -/
inductive CbEvent (E R : Type) where
  | taskDone
  | raised (e : E)
  | returned (rs : List R)
deriving DecidableEq

/-- `to_kinto.py` `markdone` (lines 126-133): when the publish future
completes, first call `queue.task_done()` once per batch item, then call
`future.result()`, which re-raises the failure if the batch failed as a
whole. -/
def markdone_to_kinto {E R : Type} (n : Nat) (futureResult : Except E (List R)) :
    List (CbEvent E R) :=
  List.replicate n CbEvent.taskDone ++
    [match futureResult with
     | Except.error e => CbEvent.raised e
     | Except.ok rs => CbEvent.returned rs]

/-- `scrape_archives.py` `markdone` (lines 305-307): acknowledge the
batch items and ignore the future entirely. -/
def markdone_scrape {E R : Type} (n : Nat)
    (futureResult : Except E (List R)) : List (CbEvent E R) :=
  match futureResult with
  | _ => List.replicate n CbEvent.taskDone

/-! ### Queue draining and cancellation (C5)

`to_kinto.py` `main` awaits `produce`, then `queue.join()`, then cancels
the consumer.  The timing facts below are each read off one line of the
code or of the `asyncio` queue contract; the claim is their
consequence. -/

/-- Time stamps of the pipeline events for one run with `nRecords`
records enqueued before the completion marker. -/
structure PipelineTimes where
  nRecords : Nat
  putAt : Nat → Nat
  putMarkerAt : Nat
  flushedAt : Nat → Nat
  ackAt : Nat → Nat
  joinAt : Nat
  cancelAt : Nat

/-- The ordering facts true of `to_kinto.py`:
* `produce` puts every record before the single completion marker
  (`queue.put(record)` in the loop, `queue.put(done)` after it);
* `main` awaits `produce` before calling `queue.join()`;
* `queue.join()` returns only once every enqueued item has been
  acknowledged with `task_done` (`asyncio.Queue` contract);
* a batched record is acknowledged by `markdone` only once its batch
  future has completed, i.e. the flush attempt finished (records skipped
  by dedup and the marker are acknowledged at the moment they are
  drained, so `flushedAt = ackAt` for them);
* `main` cancels the consumer only after `queue.join()` returned. -/
structure PipelineValid (t : PipelineTimes) : Prop where
  put_before_marker : ∀ i < t.nRecords, t.putAt i < t.putMarkerAt
  marker_before_join : t.putMarkerAt < t.joinAt
  join_after_acks : ∀ i < t.nRecords, t.ackAt i < t.joinAt
  flush_before_ack : ∀ i < t.nRecords, t.flushedAt i ≤ t.ackAt i
  cancel_after_join : t.joinAt < t.cancelAt

/-! ### Helper lemmas -/

lemma errorMsg_eq_none_iff (r : OpResult) : errorMsg r = none ↔ r.code = none := by
  cases h : r.code with
  | none => simp [errorMsg, h]
  | some c =>
    simp only [errorMsg, h]
    split_ifs <;> simp

lemma errorMsg_of_isSome (r : OpResult) (h : r.code.isSome) :
    errorMsg r = some (failMsg r) := by
  have hs : (errorMsg r).isSome := by
    cases hc : r.code with
    | none => rw [hc] at h; cases h
    | some c =>
      simp only [errorMsg, hc]
      split_ifs <;> rfl
  cases ho : errorMsg r with
  | none => rw [ho] at hs; cases hs
  | some m => simp [failMsg, ho]

lemma filterMap_errorMsg (results : List OpResult) :
    results.filterMap errorMsg =
      (results.filter (fun r => r.code.isSome)).map failMsg := by
  induction results with
  | nil => rfl
  | cons r rs ih =>
    by_cases h : r.code.isSome
    · simp [List.filterMap_cons, errorMsg_of_isSome r h, List.filter_cons, h, ih]
    · have hn : errorMsg r = none := (errorMsg_eq_none_iff r).mpr
        (Option.not_isSome_iff_eq_none.mp h)
      simp [List.filterMap_cons, hn, List.filter_cons, h, ih]

lemma produceRun_all_valid {V : Type} (lines : List (Dict V))
    (h : ∀ l ∈ lines, validLine l = true) :
    produceRun lines = (lines.map QItem.record ++ [QItem.done], none) := by
  induction lines with
  | nil => rfl
  | cons l rest ih =>
    have hl : validLine l = true := h l (List.mem_cons_self l rest)
    have hrest : ∀ x ∈ rest, validLine x = true :=
      fun x hx => h x (List.mem_cons_of_mem l hx)
    simp [produceRun, hl, ih hrest]

lemma produceRun_invalid {V : Type} (lines : List (Dict V))
    (h : ∃ l ∈ lines, validLine l = false) :
    produceRun lines = ((lines.takeWhile validLine).map QItem.record,
      some "Invalid record (missing data attribute)") := by
  induction lines with
  | nil => simp at h
  | cons l rest ih =>
    by_cases hl : validLine l = true
    · have hbad : ∃ x ∈ rest, validLine x = false := by
        rcases h with ⟨x, hx, hxf⟩
        rcases List.mem_cons.mp hx with rfl | hx2
        · rw [hl] at hxf; cases hxf
        · exact ⟨x, hx2, hxf⟩
      simp [produceRun, hl, ih hbad, List.takeWhile_cons, hl]
    · have hl2 : validLine l = false := by
        cases hv : validLine l
        · rfl
        · exact absurd hv hl
      simp [produceRun, hl2, List.takeWhile_cons, hl2]

/-! ### C10 -/

/-- C10: a stdin line whose parsed JSON object has neither a `data` nor a
`permission` key makes `produce` raise `ValueError` at that line: the
items enqueued are exactly the records of the lines before the first
invalid one, the bad line is not skipped, and the completion marker is
never enqueued (so it never reaches the consumer); with only valid lines,
all records are enqueued followed by the marker and no error is
raised. -/
theorem produce_invalid_line_prevents_marker {V : Type} (lines : List (Dict V)) :
    ((∃ l ∈ lines, validLine l = false) →
      (produceRun lines).2 = some "Invalid record (missing data attribute)"
      ∧ (produceRun lines).1 = (lines.takeWhile validLine).map QItem.record
      ∧ QItem.done ∉ (produceRun lines).1)
    ∧ ((∀ l ∈ lines, validLine l = true) →
      produceRun lines = (lines.map QItem.record ++ [QItem.done], none)) := by
  refine ⟨fun h => ?_, produceRun_all_valid lines⟩
  rw [produceRun_invalid lines h]
  refine ⟨rfl, rfl, ?_⟩
  intro hmem
  rcases List.mem_map.mp hmem with ⟨d, _, hd⟩
  cases hd

/-- C10 witness: a valid line followed by an empty JSON object; the run
errors out and only the first record (no marker) is enqueued. -/
theorem produce_invalid_line_prevents_marker_witness :
    (produceRun [[("data", 0)], ([] : Dict Nat)]).2 =
      some "Invalid record (missing data attribute)"
    ∧ QItem.done ∉ (produceRun [[("data", 0)], ([] : Dict Nat)]).1 := by
  have h := (produce_invalid_line_prevents_marker
    [[("data", 0)], ([] : Dict Nat)]).1 ⟨[], by simp, by decide⟩
  exact ⟨h.1, h.2.2⟩

/-! ### C2 -/

/-- C2: after the whole batch has been submitted (the per-operation
results are all in hand), `publish_records` returns all results exactly
when no operation carries an error code; as soon as some operation
carries an error code (412, 400, or any other), it raises exactly one
aggregated error whose message strings are, in order, one per failing
operation; the operations without error codes are the ones the server
applied, and the raise does not undo them. -/
theorem publish_records_aggregated_error (results : List OpResult) :
    (publish_records results = Except.ok results ↔ ∀ r ∈ results, r.code = none)
    ∧ ((∃ r ∈ results, r.code ≠ none) →
        publish_records results = Except.error (String.intercalate "\n"
          ((results.filter (fun r => r.code.isSome)).map failMsg)))
    ∧ (∀ r ∈ results, r.code = none → r ∈ appliedOps results) := by
  have key : ∀ r ∈ results, r.code ≠ none → ¬ (results.filterMap errorMsg).isEmpty := by
    intro r hr hne
    have hsome : errorMsg r = some (failMsg r) :=
      errorMsg_of_isSome r (Option.isSome_iff_ne_none.mpr hne)
    have hmem : failMsg r ∈ results.filterMap errorMsg :=
      List.mem_filterMap.mpr ⟨r, hr, hsome⟩
    intro hemp
    cases hfm : results.filterMap errorMsg with
    | nil => rw [hfm] at hmem; cases hmem
    | cons a l => rw [hfm] at hemp; cases hemp
  refine ⟨?_, ?_, ?_⟩
  · constructor
    · intro h r hr
      by_contra hne
      unfold publish_records at h
      rw [if_neg (key r hr hne)] at h
      cases h
    · intro h
      unfold publish_records
      have hnil : results.filterMap errorMsg = [] :=
        List.filterMap_eq_nil_iff.mpr
          (fun r hr => (errorMsg_eq_none_iff r).mpr (h r hr))
      rw [hnil]
      rfl
  · rintro ⟨r, hr, hne⟩
    unfold publish_records
    rw [if_neg (key r hr hne), filterMap_errorMsg]
  · intro r hr hc
    exact List.mem_filter.mpr ⟨hr, by rw [hc]; rfl⟩

/-- C2 witness: a two-operation batch where the second operation reports
a 412 conflict raises the single aggregated error referencing it; a batch
with no error codes returns all results. -/
theorem publish_records_aggregated_error_witness :
    publish_records [⟨none, "", "", "r1"⟩, ⟨some 412, "id2", "rec2", "r2"⟩]
      = Except.error (String.intercalate "\n"
          (([⟨none, "", "", "r1"⟩, ⟨some 412, "id2", "rec2", "r2"⟩].filter
            (fun r : OpResult => r.code.isSome)).map failMsg))
    ∧ publish_records [⟨none, "", "", "r1"⟩] = Except.ok [⟨none, "", "", "r1"⟩] :=
  ⟨(publish_records_aggregated_error _).2.1
      ⟨⟨some 412, "id2", "rec2", "r2"⟩, by simp, by simp⟩,
   (publish_records_aggregated_error _).1.mpr (by simp)⟩

/-! ### C6 -/

/-- C6 counterexample: a two-record batch whose submission fails as a
whole (the future holds a store-unreachable error) still has both of its
queue items acknowledged by the completion callback — `queue.task_done()`
runs before `future.result()` in `to_kinto.py`, and the
`scrape_archives.py` callback never looks at the result at all — so the
items do not stay unacknowledged for a retry. -/
theorem markdone_failed_batch_counterexample :
    (markdone_to_kinto 2 (Except.error "store unreachable" : Except String (List Nat))).count
      CbEvent.taskDone = 2
    ∧ markdone_scrape 2 (Except.error "store unreachable" : Except String (List Nat))
      = [CbEvent.taskDone, CbEvent.taskDone] := by
  exact ⟨by decide, by decide⟩

/-- C6 amended: when a batch submission fails as a whole, the completion
callback still marks all `n` queue items of the batch done; in
`to_kinto.py` the failure is then re-raised (after the acknowledgements,
inside the callback), and in `scrape_archives.py` it is dropped — the
items never remain unacknowledged awaiting a retry. -/
theorem markdone_acknowledges_despite_failure {E R : Type} [DecidableEq E]
    [DecidableEq R] (n : Nat) (fr : Except E (List R)) (e : E)
    (hf : fr = Except.error e) :
    (markdone_to_kinto n fr).count CbEvent.taskDone = n
    ∧ markdone_to_kinto n fr = List.replicate n CbEvent.taskDone ++ [CbEvent.raised e]
    ∧ markdone_scrape n fr = List.replicate n CbEvent.taskDone := by
  subst hf
  refine ⟨?_, rfl, rfl⟩
  rw [markdone_to_kinto, List.count_append, List.count_replicate]
  simp [List.count_cons]

/-- C6 amended witness. -/
theorem markdone_acknowledges_despite_failure_witness :
    (markdone_to_kinto 2 (Except.error "down" : Except String (List Nat))).count
      CbEvent.taskDone = 2 :=
  (markdone_acknowledges_despite_failure 2 (Except.error "down") "down" rfl).1

/-! ### C1 and C7: nightly metadata -/

lemma fetch_nightly_metadata_of_net_none (net : String → Option Metadata)
    (hnet : ∀ u, net u = none) (url : String) :
    fetch_nightly_metadata net url = none := by
  unfold fetch_nightly_metadata
  split
  · exact hnet _
  · rfl

/-- A concrete nightly day-folder URL (contains no `en-US`). -/
def exDayUrl : String :=
  "http://archive/pub/firefox/nightly/2017/10/2017-10-01-10-00-00-mozilla-central/"

/-- The canonical-locale artifact of the folder. -/
def exFileEn : FileEntry :=
  ⟨"firefox-58.0a1.en-US.linux-x86_64.zip", 50000000, "2017-10-01T10:03:38Z"⟩

/-- A co-located non-canonical-locale artifact. -/
def exFileFr : FileEntry :=
  ⟨"firefox-58.0a1.fr.linux-x86_64.zip", 49000000, "2017-10-01T10:03:40Z"⟩

/-- The nightly filename regular expression evaluated on the two example
filenames (version in group 1, locale in group 2, platform in group 4). -/
def exParse : String → Option NightlyParse := fun n =>
  if n = "firefox-58.0a1.en-US.linux-x86_64.zip" then
    some ⟨"58.0a1", "en-US", "linux-x86_64"⟩
  else if n = "firefox-58.0a1.fr.linux-x86_64.zip" then
    some ⟨"58.0a1", "fr", "linux-x86_64"⟩
  else none

/-- A network on which every JSON fetch fails (sidecar absent
everywhere). -/
def exNetNone : String → Option Metadata := fun _ => none

/-- C1 counterexample: a nightly day-folder listing whose `en-US`
metadata sidecar is absent (every sidecar fetch fails) does not emit zero
records — `fetch_nightlies` still emits one record for the matching
artifact, with `build = None`, because the record is built and enqueued
whether or not `fetch_nightly_metadata` returned anything. -/
theorem nightly_sidecar_absent_counterexample :
    fetch_nightlies_day exNetNone exParse "firefox" exDayUrl [exFileEn] ≠ []
    ∧ (fetch_nightlies_day exNetNone exParse "firefox" exDayUrl [exFileEn]).length = 1
    ∧ (fetch_nightlies_day exNetNone exParse "firefox" exDayUrl
        [exFileEn]).map Record.build = [none] := by
  exact ⟨by decide, by decide, by decide⟩

/-- C1 amended: when the metadata sidecar cannot be fetched for any
artifact of a nightly day folder, the crawl still emits one record per
matching (non-test) file of the folder — for every locale — and those
records simply carry no build metadata (`build = None`); the absence is
tolerated, not an error, and nothing is skipped. -/
theorem nightly_sidecar_absent_still_emits
    (net : String → Option Metadata) (parse : String → Option NightlyParse)
    (product day_url : String) (files : List FileEntry)
    (hnet : ∀ u, net u = none) :
    (fetch_nightlies_day net parse product day_url files).length =
      (files.filter (fun f => (parse f.name).isSome
        && !containsSubstr f.name "tests")).length
    ∧ ∀ r ∈ fetch_nightlies_day net parse product day_url files,
        r.build = none := by
  induction files with
  | nil => exact ⟨rfl, by intro r hr; cases hr⟩
  | cons f fs ih =>
    have hmeta : fetch_nightly_metadata net (day_url ++ f.name) = none :=
      fetch_nightly_metadata_of_net_none net hnet _
    refine ⟨?_, ?_⟩
    · cases hp : parse f.name with
      | none =>
        simpa [fetch_nightlies_day, List.filterMap_cons, List.filter_cons, hp]
          using ih.1
      | some p =>
        cases ht : containsSubstr f.name "tests" with
        | true =>
          simpa [fetch_nightlies_day, List.filterMap_cons, List.filter_cons,
            hp, ht] using ih.1
        | false =>
          simpa [fetch_nightlies_day, List.filterMap_cons, List.filter_cons,
            hp, ht] using ih.1
    · intro r hr
      rw [fetch_nightlies_day, List.filterMap_cons] at hr
      cases hp : parse f.name with
      | none =>
        rw [hp] at hr
        exact ih.2 r hr
      | some p =>
        rw [hp] at hr
        cases ht : containsSubstr f.name "tests" with
        | true =>
          rw [ht] at hr
          simp only [if_true] at hr
          exact ih.2 r hr
        | false =>
          rw [ht] at hr
          simp only [Bool.false_eq_true, if_false] at hr
          rcases List.mem_cons.mp hr with rfl | hr2
          · rw [hmeta]
            rfl
          · exact ih.2 r hr2

/-- C1 amended witness. -/
theorem nightly_sidecar_absent_still_emits_witness :
    (fetch_nightlies_day exNetNone exParse "firefox" exDayUrl [exFileEn]).length =
      ([exFileEn].filter (fun f => (exParse f.name).isSome
        && !containsSubstr f.name "tests")).length :=
  (nightly_sidecar_absent_still_emits exNetNone exParse "firefox" exDayUrl
    [exFileEn] (fun _ => rfl)).1

/-- The canonical-locale sidecar contents for the example folder. -/
def exMeta : Metadata :=
  ⟨"f7e1d5e4ccbb", "nightly",
   "MOZ_SOURCE_REPO=https://hg.mozilla.org/mozilla-central", "201710011000"⟩

/-- A network where exactly the canonical-locale sidecar of the example
folder resolves. -/
def exNetEn : String → Option Metadata := fun u =>
  if u = exDayUrl ++ "firefox-58.0a1.en-US.linux-x86_64.json" then some exMeta
  else none

/-- C7 counterexample: with the canonical-locale (`en-US`) sidecar
available, the metadata resolver still yields nothing for the co-located
`fr` artifact — `fetch_nightly_metadata` returns `None` for every URL not
containing `en-US` instead of reusing the canonical locale's metadata —
so the emitted `fr` record carries `build = None` while the `en-US`
record carries the build metadata. -/
theorem nightly_locale_reuse_counterexample :
    fetch_nightly_metadata exNetEn
      (exDayUrl ++ "firefox-58.0a1.fr.linux-x86_64.zip") = none
    ∧ fetch_nightly_metadata exNetEn
        (exDayUrl ++ "firefox-58.0a1.en-US.linux-x86_64.zip") = some exMeta
    ∧ (fetch_nightlies_day exNetEn exParse "firefox" exDayUrl
        [exFileEn, exFileFr]).map Record.build =
      [some ⟨"201710011000", "2017-10-01T10:00:00"⟩, none] := by
  exact ⟨by decide, by decide, by decide⟩

/-- C7 amended: the nightly metadata resolver fetches the sidecar only
for URLs containing `en-US` and yields `None` for every other locale's
artifact (there is no caching or reuse across locales, each artifact
resolves its own URL); consequently the record emitted for a
non-canonical-locale artifact carries no build metadata. -/
theorem nightly_non_canonical_locale_no_metadata
    (net : String → Option Metadata) (url : String)
    (h : containsSubstr url "en-US" = false) :
    fetch_nightly_metadata net url = none
    ∧ ∀ (product version platform locale : String) (size : Nat) (date : String),
        (archive product version platform locale (some "nightly") url size date
          (fetch_nightly_metadata net url)).build = none := by
  have h1 : fetch_nightly_metadata net url = none := by
    unfold fetch_nightly_metadata
    rw [h]
    rfl
  exact ⟨h1, fun product version platform locale size date => by rw [h1]; rfl⟩

/-- C7 amended witness. -/
theorem nightly_non_canonical_locale_no_metadata_witness :
    fetch_nightly_metadata exNetEn
      (exDayUrl ++ "firefox-58.0a1.fr.linux-x86_64.zip") = none :=
  (nightly_non_canonical_locale_no_metadata exNetEn
    (exDayUrl ++ "firefox-58.0a1.fr.linux-x86_64.zip") (by decide)).1

/-! ### C3: batch size honours the server maximum -/

lemma collectBatch_length_le {V : Type} [DecidableEq V] (maxSize : Nat)
    (byId : List (V × Dict V)) (q : List (QItem V)) (batch : List (Dict V))
    (h : batch.length ≤ maxSize) :
    (collectBatch maxSize byId q batch).1.length ≤ maxSize := by
  induction q generalizing batch with
  | nil => simpa [collectBatch] using h
  | cons item rest ih =>
    simp only [collectBatch]
    split_ifs with h1
    · simpa using h
    · cases item with
      | done => simpa using h
      | record data =>
        simp only []
        split_ifs with h2
        · exact ih batch h
        · exact ih (batch ++ [data]) (by simp; omega)

lemma consumeLoop_batch_length_le {V : Type} [DecidableEq V] (maxSize : Nat)
    (byId : List (V × Dict V)) (fuel : Nat) (q : List (QItem V)) :
    ∀ b ∈ consumeLoop maxSize byId fuel q, b.length ≤ maxSize := by
  induction fuel generalizing q with
  | zero => simp [consumeLoop]
  | succ n ih =>
    cases q with
    | nil => simp [consumeLoop]
    | cons it rest =>
      rw [consumeLoop]
      split_ifs with h1
      · exact ih _
      · intro b hb
        rcases List.mem_cons.mp hb with rfl | hb2
        · exact collectBatch_length_le maxSize byId _ [] (by simp)
        · exact ih _ b hb2

lemma scrapeCollectBatch_length_le {R : Type} (maxSize : Nat) (q batch : List R)
    (h : batch.length ≤ maxSize) :
    (scrapeCollectBatch maxSize q batch).1.length ≤ maxSize := by
  induction q generalizing batch with
  | nil => simpa [scrapeCollectBatch] using h
  | cons item rest ih =>
    rw [scrapeCollectBatch]
    split_ifs with h1
    · simpa using h
    · exact ih (batch ++ [item]) (by simp; omega)

lemma scrapeConsumeLoop_batch_length_le {R : Type} (maxSize : Nat)
    (fuel : Nat) (q : List R) :
    ∀ b ∈ scrapeConsumeLoop maxSize fuel q, b.length ≤ maxSize := by
  induction fuel generalizing q with
  | zero => simp [scrapeConsumeLoop]
  | succ n ih =>
    cases q with
    | nil => simp [scrapeConsumeLoop]
    | cons it rest =>
      rw [scrapeConsumeLoop]
      split_ifs with h1
      · exact ih _
      · intro b hb
        rcases List.mem_cons.mp hb with rfl | hb2
        · exact scrapeCollectBatch_length_le maxSize _ [] (by simp)
        · exact ih _ b hb2

/-- C3: in both consumers every submitted batch holds at most
`server_info()["settings"]["batch_max_requests"]` records; and with an
advertised ceiling of 25, sixty records already enqueued (followed by the
completion marker on the `to_kinto` queue) are flushed as exactly three
batches of sizes 25, 25 and 10. -/
theorem batches_honor_server_max :
    (∀ (V : Type) (inst : DecidableEq V) (info : ServerInfo)
        (byId : List (V × Dict V)) (q : List (QItem V)),
      ∀ b ∈ consume info byId q, b.length ≤ info.settings.batch_max_requests)
    ∧ (∀ (R : Type) (info : ServerInfo) (q : List R),
      ∀ b ∈ scrape_consume info q, b.length ≤ info.settings.batch_max_requests)
    ∧ (consume (V := Nat) ⟨⟨25⟩⟩ []
        ((List.range 60).map (fun i => QItem.record [("id", i)]) ++ [QItem.done])).map
        List.length = [25, 25, 10]
    ∧ (scrape_consume (R := Nat) ⟨⟨25⟩⟩ (List.range 60)).map List.length
        = [25, 25, 10] := by
  refine ⟨?_, ?_, by decide, by decide⟩
  · intro V inst info byId q
    exact consumeLoop_batch_length_le _ byId q.length q
  · intro R info q
    exact scrapeConsumeLoop_batch_length_le _ q.length q

/-- C3 witness: the single batch produced from a one-record queue under a
ceiling of 1 respects the ceiling. -/
theorem batches_honor_server_max_witness :
    ([([("id", 0)] : Dict Nat)]).length ≤
      (⟨⟨1⟩⟩ : ServerInfo).settings.batch_max_requests :=
  batches_honor_server_max.1 Nat inferInstance ⟨⟨1⟩⟩ []
    [QItem.record [("id", 0)]] [([("id", 0)] : Dict Nat)] (by decide)

/-! ### C4: dedup is field-by-field equality modulo the volatile fields -/

lemma lookup_mem {V : Type} (d : Dict V) (k : String) (v : V)
    (h : d.lookup k = some v) : (k, v) ∈ d := by
  induction d with
  | nil => cases h
  | cons kv rest ih =>
    rw [List.lookup] at h
    rcases hk : (k == kv.1) with _ | _
    · rw [hk] at h
      exact List.mem_cons_of_mem _ (ih h)
    · rw [hk] at h
      have hkk : k = kv.1 := by simpa using hk
      have hv : kv.2 = v := by simpa using h
      subst hkk
      rw [← hv]
      exact List.mem_cons_self _ _

lemma mem_lookup_of_nodup {V : Type} (d : Dict V) (k : String) (v : V)
    (hmem : (k, v) ∈ d) (hnd : (d.map Prod.fst).Nodup) :
    d.lookup k = some v := by
  induction d with
  | nil => cases hmem
  | cons kv rest ih =>
    rw [List.lookup]
    rcases List.mem_cons.mp hmem with heq | hmem2
    · rw [← heq]
      simp
    · rcases hk : (k == kv.1) with _ | _
      · rw [List.map_cons, List.nodup_cons] at hnd
        exact ih hmem2 hnd.2
      · have hkk : k = kv.1 := by simpa using hk
        rw [List.map_cons, List.nodup_cons] at hnd
        exact absurd (hkk ▸ List.mem_map_of_mem Prod.fst hmem2) hnd.1

lemma dictEqb_eq_true_iff {V : Type} [DecidableEq V] (d1 d2 : Dict V)
    (h1 : (d1.map Prod.fst).Nodup) (h2 : (d2.map Prod.fst).Nodup) :
    dictEqb d1 d2 = true ↔ ∀ k, d1.lookup k = d2.lookup k := by
  unfold dictEqb
  rw [Bool.and_eq_true, List.all_eq_true, List.all_eq_true]
  constructor
  · rintro ⟨ha, hb⟩ k
    cases hv : d1.lookup k with
    | some v =>
      have := ha (k, v) (lookup_mem d1 k v hv)
      rw [decide_eq_true_eq] at this
      rw [this]
    | none =>
      cases hw : d2.lookup k with
      | none => rfl
      | some w =>
        have := hb (k, w) (lookup_mem d2 k w hw)
        rw [decide_eq_true_eq] at this
        rw [hv] at this
        cases this
  · intro h
    constructor
    · intro kv hkv
      rw [decide_eq_true_eq, ← h kv.1]
      exact mem_lookup_of_nodup d1 kv.1 kv.2 hkv h1
    · intro kv hkv
      rw [decide_eq_true_eq, h kv.1]
      exact mem_lookup_of_nodup d2 kv.1 kv.2 hkv h2

lemma omitVolatile_keys_nodup {V : Type} (d : Dict V)
    (h : (d.map Prod.fst).Nodup) : ((omitVolatile d).map Prod.fst).Nodup :=
  ((List.filter_sublist d).map Prod.fst).nodup h

lemma records_equal_eq_true_iff {V : Type} [DecidableEq V] (r1 r2 : Dict V)
    (h1 : (r1.map Prod.fst).Nodup) (h2 : (r2.map Prod.fst).Nodup) :
    records_equal r1 r2 = true ↔
      ∀ k, (omitVolatile r1).lookup k = (omitVolatile r2).lookup k :=
  dictEqb_eq_true_iff (omitVolatile r1) (omitVolatile r2)
    (omitVolatile_keys_nodup r1 h1) (omitVolatile_keys_nodup r2 h2)

/-- C4: a dequeued record whose `data["id"]` is a key of the previous-run
snapshot is skipped (acknowledged without entering the batch) precisely
when it agrees with the snapshot entry on every field after removing
exactly `last_modified` and `schema` from both; if any other field
differs the record goes into the batch, and a record whose id is not in
the snapshot always goes into the batch. -/
theorem consume_dedup_field_by_field {V : Type} [DecidableEq V]
    (byId : List (V × Dict V)) (data prev : Dict V) (rid : V)
    (hid : data.lookup "id" = some rid)
    (hsnap : byId.lookup rid = some prev)
    (h1 : (data.map Prod.fst).Nodup) (h2 : (prev.map Prod.fst).Nodup) :
    (shouldSkip byId data = true ↔
      ∀ k, (omitVolatile data).lookup k = (omitVolatile prev).lookup k)
    ∧ (∀ (maxSize : Nat) (q : List (QItem V)) (batch : List (Dict V)),
        batch.length < maxSize →
        collectBatch maxSize byId (QItem.record data :: q) batch =
          (if shouldSkip byId data then collectBatch maxSize byId q batch
           else collectBatch maxSize byId q (batch ++ [data])))
    ∧ (∀ (data2 : Dict V) (rid2 : V), data2.lookup "id" = some rid2 →
        byId.lookup rid2 = none → shouldSkip byId data2 = false) := by
  refine ⟨?_, ?_, ?_⟩
  · simp only [shouldSkip, hid, hsnap]
    exact records_equal_eq_true_iff data prev h1 h2
  · intro maxSize q batch hlt
    simp only [collectBatch]
    rw [if_neg (by omega)]
  · intro data2 rid2 hid2 hnone
    simp only [shouldSkip, hid2, hnone]

/-- A snapshot entry and an incoming record that agree everywhere except
on the volatile bookkeeping fields. -/
def exSnapPrev : Dict Nat := [("id", 7), ("size", 3), ("schema", 5)]

/-- The matching incoming record data. -/
def exSnapData : Dict Nat := [("id", 7), ("size", 3), ("last_modified", 100)]

/-- C4 witness. -/
theorem consume_dedup_field_by_field_witness :
    shouldSkip [(7, exSnapPrev)] exSnapData = true
    ∧ collectBatch 25 [(7, exSnapPrev)] [QItem.record exSnapData] [] = ([], []) := by
  have heq : omitVolatile exSnapData = omitVolatile exSnapPrev := by decide
  refine ⟨(consume_dedup_field_by_field [(7, exSnapPrev)] exSnapData exSnapPrev 7
    (by decide) (by decide) (by decide) (by decide)).1.mpr (fun k => by rw [heq]),
    by decide⟩

/-! ### C8: version folder filtering and descending processing order -/

lemma flatMap_erase_not_mem {α β : Type} [DecidableEq α] (l : List α) (v : α)
    (f : α → List β) (h : v ∉ l) :
    l.flatMap f = l.flatMap (fun w => if w = v then [] else f w) := by
  induction l with
  | nil => rfl
  | cons a rest ih =>
    have ha : a ≠ v := fun hav => h (hav ▸ List.mem_cons_self a rest)
    have hrest : v ∉ rest := fun hv => h (List.mem_cons_of_mem a hv)
    simp only [List.flatMap_cons, if_neg ha, ih hrest]

/-- C8: a listed version folder is retained by `fetch_versions` exactly
when its name starts with a digit, (stripped of its trailing slash) does
not contain `funnelcake`, and its parsed version is strictly greater than
the last known published version; the retained versions are processed in
descending parsed-version order; and a version that is not strictly
greater than the last known one is not retained, so its sub-crawl
contributes zero records to the emission. -/
theorem versions_filter_and_sort {V : Type} [LinearOrder V]
    (vparse : String → V) (folders : List String) (latest : String) :
    (∀ v, v ∈ fetch_versions_retained vparse folders latest ↔
      ∃ f, f ∈ folders ∧ startsWithDigit f = true ∧ f.dropRight 1 = v
        ∧ containsSubstr v "funnelcake" = false ∧ vparse latest < vparse v)
    ∧ List.Sorted (descKey vparse) (fetch_versions_retained vparse folders latest)
    ∧ (∀ (recsOf : String → List Record) (v : String),
        ¬ vparse latest < vparse v →
        v ∉ fetch_versions_retained vparse folders latest
        ∧ fetch_versions_emitted vparse recsOf folders latest
          = fetch_versions_emitted vparse
              (fun w => if w = v then [] else recsOf w) folders latest) := by
  have hmem : ∀ v, v ∈ fetch_versions_retained vparse folders latest ↔
      ∃ f, f ∈ folders ∧ startsWithDigit f = true ∧ f.dropRight 1 = v
        ∧ containsSubstr v "funnelcake" = false ∧ vparse latest < vparse v := by
    intro v
    unfold fetch_versions_retained
    rw [List.Perm.mem_iff (List.perm_insertionSort _ _)]
    simp only [List.mem_filter, List.mem_map, List.mem_filter,
      decide_eq_true_eq, Bool.not_eq_eq_eq_not, Bool.not_true]
    constructor
    · rintro ⟨⟨⟨f, ⟨hf, hd⟩, hv⟩, hfu⟩, hgt⟩
      exact ⟨f, hf, hd, hv, by simpa using hfu, hgt⟩
    · rintro ⟨f, hf, hd, hv, hfu, hgt⟩
      exact ⟨⟨⟨f, ⟨hf, hd⟩, hv⟩, by simpa using hfu⟩, hgt⟩
  refine ⟨hmem, ?_, ?_⟩
  · exact List.sorted_insertionSort (descKey vparse) _
  · intro recsOf v hnot
    have hout : v ∉ fetch_versions_retained vparse folders latest := by
      intro hin
      rcases (hmem v).mp hin with ⟨f, _, _, _, _, hgt⟩
      exact hnot hgt
    exact ⟨hout, flatMap_erase_not_mem _ v recsOf hout⟩

/-- The `packaging.version.parse` key evaluated on the two versions of
the witness scenario: the numeric major version (on `"49.0"` and
`"50.0"` every reasonable version parser agrees with this order). -/
def vparseMajor (s : String) : Nat :=
  (s.toList.takeWhile Char.isDigit).foldl (fun n c => n * 10 + (c.toNat - 48)) 0

/-- C8 witness: with last known version `50.0`, the folder `49.0/` is
not retained and contributes zero records. -/
theorem versions_filter_and_sort_witness :
    "49.0" ∉ fetch_versions_retained vparseMajor ["49.0/"] "50.0"
    ∧ fetch_versions_retained vparseMajor ["49.0/"] "50.0" = [] := by
  refine ⟨((versions_filter_and_sort vparseMajor ["49.0/"] "50.0").2.2
    (fun _ => []) "49.0" (by decide)).1, by decide⟩

/-! ### C9: snapshot file handling -/

/-- A cached record for the snapshot scenarios. -/
def exKRecord : KRecord := ⟨"abc", 42, "r"⟩

/-- C9 counterexample: with a non-empty cached snapshot and a server
returning zero new records, `fetch_existing` still rewrites the snapshot
file — and it does so at startup, before the producer/consumer pipeline
of the run (`to_kinto.py` `main` calls `fetch_existing` before starting
the queue), not at the end of the run after new records were observed. -/
theorem snapshot_rewrite_counterexample :
    (fetch_existing (some [exKRecord]) (fun _ => [])).records = [exKRecord]
    ∧ (fetch_existing (some [exKRecord]) (fun _ => [])).fsOps
        = [FsOp.writeTmp [exKRecord], FsOp.renameTmpOverCache]
    ∧ to_kinto_run true (some [exKRecord]) (fun _ => [])
        = [RunEvent.readCache, RunEvent.fetchNew 0,
           RunEvent.fs (FsOp.writeTmp [exKRecord]),
           RunEvent.fs FsOp.renameTmpOverCache,
           RunEvent.pipeline, RunEvent.runEnd] := by
  exact ⟨by decide, by decide, by decide⟩

/-- C9 amended: the snapshot is read once, at startup; whenever the
merged record list (previous cache plus records newly fetched from the
server — not only newly observed ones) is non-empty, it is rewritten
right there at startup, before the pipeline of the run; the rewrite is
atomic: it writes a temporary file and renames it over the cache file, so
after any prefix of the filesystem operations the cache file holds either
its old contents or the complete new record list, never a partial
write. -/
theorem fetch_existing_atomic_startup_rewrite
    (cache : Option (List KRecord))
    (get_records : Option String → List KRecord) :
    ((fetch_existing cache get_records).fsOps =
      if (fetch_existing cache get_records).records.length > 0 then
        [FsOp.writeTmp (fetch_existing cache get_records).records,
         FsOp.renameTmpOverCache]
      else [])
    ∧ (∀ (fs0 : Fs) (k : Nat),
        (applyOps fs0 ((fetch_existing cache get_records).fsOps.take k)).cacheFile
          = fs0.cacheFile
        ∨ (applyOps fs0 ((fetch_existing cache get_records).fsOps.take k)).cacheFile
          = some (fetch_existing cache get_records).records)
    ∧ (to_kinto_run true cache get_records).count RunEvent.readCache = 1
    ∧ to_kinto_run true cache get_records =
        RunEvent.readCache ::
          RunEvent.fetchNew
            (get_records (fetch_existing cache get_records).since).length ::
          ((fetch_existing cache get_records).fsOps.map RunEvent.fs
            ++ [RunEvent.pipeline, RunEvent.runEnd]) := by
  have hops : (fetch_existing cache get_records).fsOps =
      if (fetch_existing cache get_records).records.length > 0 then
        [FsOp.writeTmp (fetch_existing cache get_records).records,
         FsOp.renameTmpOverCache]
      else [] := by
    unfold fetch_existing
    split_ifs with h
    · simp only [] at h ⊢
      rw [if_pos h]
    · simp only [] at h ⊢
      rw [if_neg h]
  refine ⟨hops, ?_, ?_, ?_⟩
  · intro fs0 k
    rw [hops]
    split_ifs with h
    · match k with
      | 0 => left; rfl
      | 1 => left; rfl
      | n + 2 =>
        right
        simp [applyOps, applyOp]
    · left
      simp [applyOps]
  · have hnot : RunEvent.readCache ∉
        ((fetch_existing cache get_records).fsOps.map RunEvent.fs
          ++ [RunEvent.pipeline, RunEvent.runEnd]) := by
      intro hmem
      rcases List.mem_append.mp hmem with hl | hr
      · rcases List.mem_map.mp hl with ⟨op, _, hop⟩
        cases hop
      · rcases List.mem_cons.mp hr with h1 | h2
        · cases h1
        · rcases List.mem_cons.mp h2 with h3 | h4
          · cases h3
          · cases h4
    have hnot2 : RunEvent.readCache ≠
        RunEvent.fetchNew
          (get_records (fetch_existing cache get_records).since).length := by
      intro h
      cases h
    have htrace : to_kinto_run true cache get_records =
        RunEvent.readCache ::
          RunEvent.fetchNew
            (get_records (fetch_existing cache get_records).since).length ::
          ((fetch_existing cache get_records).fsOps.map RunEvent.fs
            ++ [RunEvent.pipeline, RunEvent.runEnd]) := rfl
    rw [htrace, List.count_cons_self, List.count_cons_of_ne hnot2,
      List.count_eq_zero.mpr hnot]
  · rfl

/-! ### C5: the marker, draining, and cancellation order -/

/-- C5: the completion marker is enqueued exactly once, as the last item,
after all records of a fully-valid stdin stream (the producer enqueues it
only after its loop ends); and in every run satisfying the code-derived
timing facts (`PipelineValid`), each record enqueued before the marker is
flushed and acknowledged strictly before the consumer is cancelled —
cancellation never precedes the draining of records produced before the
marker. -/
theorem pipeline_drains_before_cancel :
    (∀ (V : Type) (inst : DecidableEq V) (lines : List (Dict V)),
      (∀ l ∈ lines, validLine l = true) →
      ((produceRun lines).1.count QItem.done = 1
        ∧ (produceRun lines).1.getLast? = some QItem.done))
    ∧ (∀ t : PipelineTimes, PipelineValid t →
        ∀ i < t.nRecords,
          t.putAt i < t.putMarkerAt
          ∧ t.flushedAt i < t.cancelAt
          ∧ t.ackAt i < t.cancelAt) := by
  constructor
  · intro V inst lines h
    rw [produceRun_all_valid lines h]
    constructor
    · have h0 : (lines.map QItem.record).count (QItem.done (V := V)) = 0 :=
        List.count_eq_zero.mpr (fun hmem => by
          rcases List.mem_map.mp hmem with ⟨d, _, hd⟩
          cases hd)
      rw [List.count_append, h0]
      simp
    · exact List.getLast?_concat _
  · intro t ht i hi
    refine ⟨ht.put_before_marker i hi, ?_, ?_⟩
    · calc t.flushedAt i ≤ t.ackAt i := ht.flush_before_ack i hi
        _ < t.joinAt := ht.join_after_acks i hi
        _ < t.cancelAt := ht.cancel_after_join
    · exact lt_trans (ht.join_after_acks i hi) ht.cancel_after_join

/-- A concrete one-record run satisfying the timing facts. -/
def exTimes : PipelineTimes :=
  ⟨1, fun _ => 0, 1, fun _ => 2, fun _ => 3, 4, 5⟩

/-- C5 witness. -/
theorem pipeline_drains_before_cancel_witness :
    (produceRun [[("data", 0)]] : List (QItem Nat) × Option String).1.count
      QItem.done = 1
    ∧ exTimes.ackAt 0 < exTimes.cancelAt := by
  refine ⟨(pipeline_drains_before_cancel.1 Nat inferInstance [[("data", 0)]]
    (by decide)).1, ?_⟩
  exact (pipeline_drains_before_cancel.2 exTimes
    ⟨by decide, by decide, by decide, by decide, by decide⟩ 0 (by decide)).2.2

end Buildhub
